import Mathlib

/-!
Verification of the JSON-file-backed record store (WriteLock, QueryBuilder,
JsonFileStore) against its specification.

The embedding is shallow: the TypeScript classes become Lean structures and
pure functions.  File I/O is modelled by an explicit `FileState` (the file is
absent, holds a well-formed JSON array of records, or is unreadable/corrupt);
each store method consumes and returns such a state.  The schema validator is
an opaque collaborator, modelled by a `Validator` record of functions; the
Todo schema of the demo driver gives a concrete instance used by witnesses.
-/

namespace SimpleStore

/-! ### The write lock

`WriteLock` from the source keeps a `locked` flag and a queue of waiter
callbacks.  The model adds ghost fields that only record history: `holders`
counts callers currently holding the lock, `suspended` lists every caller
whose `acquire()` found the lock held (in arrival order), and `granted` lists
the waiters that a `release()` handed the lock to (in grant order). -/

inductive LockEvent where
  | acq (c : Nat)
  | rel
deriving DecidableEq, Repr

structure WriteLock where
  locked : Bool
  queue : List Nat
  holders : Nat
  suspended : List Nat
  granted : List Nat
deriving DecidableEq, Repr

namespace WriteLock

def init : WriteLock := ⟨false, [], 0, [], []⟩

/-- One step of the lock: `acq c` models caller `c` calling `acquire()`
(immediate grant when the lock is free, otherwise the caller is pushed on the
queue and suspends); `rel` models `release()` (shift the queue and hand the
lock over, or mark the lock free). -/
def step (s : WriteLock) : LockEvent → WriteLock
  | .acq c =>
    if s.locked then
      { s with queue := s.queue ++ [c], suspended := s.suspended ++ [c] }
    else
      { s with locked := true, holders := s.holders + 1 }
  | .rel =>
    match s.queue with
    | [] => { s with locked := false, holders := s.holders - 1 }
    | c :: rest =>
      { s with locked := true, queue := rest, granted := s.granted ++ [c] }

def run (s : WriteLock) : List LockEvent → WriteLock
  | [] => s
  | e :: es => run (s.step e) es

/-- The inductive invariant of the lock machine. -/
def Inv (s : WriteLock) : Prop :=
  s.holders ≤ 1 ∧ (s.locked = true ↔ s.holders = 1) ∧
    (s.locked = false → s.queue = []) ∧ s.suspended = s.granted ++ s.queue

/-- A sample trace: three acquires racing, then three releases. -/
def demoTrace : List LockEvent :=
  [.acq 0, .acq 1, .acq 2, .rel, .rel, .rel]

end WriteLock

/-! ### Records, file states and errors -/

/-- `WithId<T>` from the source: the schema payload plus the system id. -/
structure WithId (P : Type) where
  id : String
  fields : P
deriving DecidableEq, Repr

/-- Errors a store operation can surface: a read failure (unreadable or
malformed file) or a schema validation failure. -/
inductive StoreErr where
  | read (msg : String)
  | validation (msg : String)
deriving DecidableEq, Repr

/-- The backing file: missing, a well-formed JSON array of records, or
present but unreadable/corrupt (permissions, malformed JSON). -/
inductive FileState (P : Type) where
  | absent
  | content (records : List (WithId P))
  | corrupt (msg : String)
deriving DecidableEq, Repr

/-- The opaque schema-validation collaborator: `parse` is the full schema
parse used by `create`; `partialParse` is `schema.partial().parse` applied to
the merged full object during `update`; `merge` is the object-spread
`\x7b ...fields, ...updates \x7d` on the payload part. -/
structure Validator (I P U : Type) where
  parse : I → Except String P
  partialParse : P → Except String P
  merge : P → U → P

namespace JsonFileStore

variable {I P U : Type}

/-- `readFile`: a missing file is an empty collection; any other failure
propagates. -/
def readFile : FileState P → Except StoreErr (List (WithId P))
  | .absent => .ok []
  | .content l => .ok l
  | .corrupt msg => .error (.read msg)

def getAll (st : FileState P) : Except StoreErr (List (WithId P)) :=
  readFile st

def getById (i : String) (st : FileState P) :
    Except StoreErr (Option (WithId P)) :=
  (readFile st).map (fun d => d.find? (fun r => r.id == i))

/-- `create`: validate first, then read, append a record carrying the fresh
id `uuid`, and rewrite the file.  Returns the result together with the file
state after the call. -/
def create (V : Validator I P U) (uuid : String) (input : I)
    (st : FileState P) : Except StoreErr (WithId P) × FileState P :=
  match V.parse input with
  | .error e => (.error (.validation e), st)
  | .ok parsed =>
    match readFile st with
    | .error e => (.error e, st)
    | .ok data =>
      let newItem : WithId P := ⟨uuid, parsed⟩
      (.ok newItem, .content (data ++ [newItem]))

/-- Helper mirroring `findIndex` + in-place replacement in `update`: locate
the first record with the given id, merge and re-validate, and return the
updated record together with the rewritten list. -/
def updateList (V : Validator I P U) (i : String) (u : U) :
    List (WithId P) → Except String (Option (WithId P × List (WithId P)))
  | [] => .ok none
  | r :: rest =>
    if r.id == i then
      match V.partialParse (V.merge r.fields u) with
      | .error e => .error e
      | .ok parsed => .ok (some (⟨r.id, parsed⟩, ⟨r.id, parsed⟩ :: rest))
    else
      (updateList V i u rest).map (Option.map (fun pr => (pr.1, r :: pr.2)))

/-- `update`: read, locate by id (absent id is not an error), merge the
partial input over the record's fields, re-validate, write back. -/
def update (V : Validator I P U) (i : String) (u : U) (st : FileState P) :
    Except StoreErr (Option (WithId P)) × FileState P :=
  match readFile st with
  | .error e => (.error e, st)
  | .ok data =>
    match updateList V i u data with
    | .error e => (.error (.validation e), st)
    | .ok none => (.ok none, st)
    | .ok (some (r, newData)) => (.ok (some r), .content newData)

/-- `delete`: filter the id out; when nothing was removed return `false`
without writing, otherwise rewrite the file and return `true`. -/
def delete (i : String) (st : FileState P) :
    Except StoreErr Bool × FileState P :=
  match readFile st with
  | .error e => (.error e, st)
  | .ok data =>
    let newData := data.filter (fun r => r.id != i)
    if newData.length = data.length then (.ok false, st)
    else (.ok true, .content newData)

def find (p : WithId P → Bool) (st : FileState P) :
    Except StoreErr (List (WithId P)) :=
  (readFile st).map (fun d => d.filter p)

def first (p : WithId P → Bool) (st : FileState P) :
    Except StoreErr (Option (WithId P)) :=
  (readFile st).map (fun d => d.find? p)

/-- `count`: with a predicate, the number of matching records; without one,
the length of the collection. -/
def count (p : Option (WithId P → Bool)) (st : FileState P) :
    Except StoreErr Nat :=
  (readFile st).map (fun d =>
    match p with
    | some f => (d.filter f).length
    | none => d.length)

/-- The source method is called `exists`, a reserved word in Lean. -/
def existsId (i : String) (st : FileState P) : Except StoreErr Bool :=
  (readFile st).map (fun d => d.any (fun r => r.id == i))

end JsonFileStore

/-! ### The query builder -/

inductive SortOrder where
  | asc
  | desc
deriving DecidableEq, Repr

/-- `QueryBuilder<T>`: holds a working copy of the snapshot.  The source
mutates `this.data` and returns `this`; the pure model returns a new builder
value holding the new working sequence. -/
structure QueryBuilder (P : Type) where
  data : List (WithId P)
deriving DecidableEq, Repr

/-- JavaScript `l.slice(0, n)` for an integer `n`: a negative `n` counts
from the end of the array. -/
def jsSlice (n : Int) (l : List α) : List α :=
  if n < 0 then l.take (l.length - (-n).toNat) else l.take n.toNat

/-- The comparator passed to `Array.prototype.sort` in `sort(key, order)`:
`-1`/`1` from `<` and `>` on the projected values, with the signs swapped
for descending order. -/
def jsCompare {P κ : Type} [LinearOrder κ] (k : WithId P → κ)
    (order : SortOrder) (a b : WithId P) : Int :=
  if k a < k b then (match order with | .asc => -1 | .desc => 1)
  else if k b < k a then (match order with | .asc => 1 | .desc => -1)
  else 0

namespace QueryBuilder

variable {P : Type}

def filter (b : QueryBuilder P) (p : WithId P → Bool) : QueryBuilder P :=
  ⟨b.data.filter p⟩

def limit (b : QueryBuilder P) (n : Int) : QueryBuilder P :=
  ⟨jsSlice n b.data⟩

/-- `sort(key, order)`: Node's `Array.prototype.sort` is a stable comparator
sort (an element stays before another when the comparator is `≤ 0`), modelled
by `List.mergeSort`. -/
def sort {κ : Type} [LinearOrder κ] (b : QueryBuilder P) (k : WithId P → κ)
    (order : SortOrder) : QueryBuilder P :=
  ⟨b.data.mergeSort (fun x y => decide (jsCompare k order x y ≤ 0))⟩

def exec (b : QueryBuilder P) : List (WithId P) := b.data

end QueryBuilder

/-- `query()`: a builder initialized with a fresh snapshot of the
collection. -/
def JsonFileStore.query {P : Type} (st : FileState P) :
    Except StoreErr (QueryBuilder P) :=
  (JsonFileStore.readFile st).map (fun d => ⟨d⟩)

/-- Modelled from the spec's words in the pipeline law: sorting a sequence
by key `k` in descending order (stable). -/
def sortByKeyDesc {P κ : Type} [LinearOrder κ] (k : WithId P → κ)
    (l : List (WithId P)) : List (WithId P) :=
  l.mergeSort (fun x y => decide (k y ≤ k x))

/-! ### The Todo schema of the demo driver, as a concrete instance -/

structure Todo where
  title : String
  done : Bool
  createdAt : String
deriving DecidableEq, Repr

/-- A raw input to `create` before validation: any subset of the Todo fields
may be present. -/
structure RawTodo where
  title : Option String := none
  done : Option Bool := none
  createdAt : Option String := none
deriving DecidableEq, Repr

/-- A `Partial<Todo>` update object. -/
structure TodoPatch where
  title : Option String := none
  done : Option Bool := none
  createdAt : Option String := none
deriving DecidableEq, Repr

/-- The Todo schema: `title` required, `done` defaults to `false`,
`createdAt` defaults to the current time (`now`, passed explicitly since the
model is pure). -/
def todoValidator (now : String) : Validator RawTodo Todo TodoPatch where
  parse r :=
    match r.title with
    | none => .error "title: Required"
    | some t => .ok ⟨t, r.done.getD false, r.createdAt.getD now⟩
  partialParse p := .ok p
  merge p u := ⟨u.title.getD p.title, u.done.getD p.done,
    u.createdAt.getD p.createdAt⟩

def demoNow : String := "2026-01-01T00:00:00.000Z"

def demoTodoA : Todo := ⟨"Task A", false, demoNow⟩

def demoTodoB : Todo := ⟨"Task B", true, demoNow⟩

/-- The empty partial input `\x7b\x7d`. -/
def emptyPatch : TodoPatch := ⟨none, none, none⟩

def recA : WithId Todo := ⟨"a1", demoTodoA⟩

def recB : WithId Todo := ⟨"b2", demoTodoB⟩

/-- A sample two-record collection on disk. -/
def stAB : FileState Todo := .content [recA, recB]

/-! ## Theorems -/

/-! ### The write-lock invariant -/

theorem WriteLock.inv_init : WriteLock.Inv WriteLock.init := by
  simp [Inv, init]

theorem WriteLock.inv_step (s : WriteLock) (e : LockEvent) (h : s.Inv) :
    (s.step e).Inv := by
  obtain ⟨lk, qu, ho, su, gr⟩ := s
  obtain ⟨h1, h2, h3, h4⟩ := h
  have h1' : ho ≤ 1 := h1
  have h2' : lk = true ↔ ho = 1 := h2
  have h3' : lk = false → qu = [] := h3
  have h4' : su = gr ++ qu := h4
  cases e with
  | acq c =>
    cases lk with
    | true =>
      refine ⟨h1, h2, fun hf => Bool.noConfusion hf, ?_⟩
      show su ++ [c] = gr ++ (qu ++ [c])
      rw [h4', List.append_assoc]
    | false =>
      have hh0 : ho = 0 := by
        have hne : ho ≠ 1 := fun hh => Bool.noConfusion (h2'.mpr hh)
        omega
      refine ⟨?_, ⟨fun _ => ?_, fun _ => rfl⟩,
        fun hf => Bool.noConfusion hf, h4⟩
      · show ho + 1 ≤ 1
        omega
      · show ho + 1 = 1
        omega
  | rel =>
    cases qu with
    | nil =>
      refine ⟨?_, ⟨fun hf => Bool.noConfusion hf, fun hh => ?_⟩,
        fun _ => rfl, h4⟩
      · show ho - 1 ≤ 1
        omega
      · exact absurd (show ho - 1 = 1 from hh) (by omega)
    | cons q rest =>
      cases lk with
      | false => exact absurd (h3' rfl) (by simp)
      | true =>
        have hh1 : ho = 1 := h2'.mp rfl
        refine ⟨h1, ⟨fun _ => hh1, fun _ => rfl⟩,
          fun hf => Bool.noConfusion hf, ?_⟩
        show su = (gr ++ [q]) ++ rest
        rw [h4']
        simp

theorem WriteLock.inv_run (s : WriteLock) (es : List LockEvent) (h : s.Inv) :
    (s.run es).Inv := by
  induction es generalizing s with
  | nil => exact h
  | cons e es ih => exact ih _ (inv_step s e h)

/-- C6: starting from the free lock, after any sequence of acquire/release
events at most one caller holds the lock; the waiters that have been granted
the lock are exactly the earliest-arriving suspended callers, in arrival
order, with the rest still queued in arrival order; an unlocked lock has no
waiters; a further `acquire` while the lock is held suspends the caller (it
is appended to the queue and nobody new holds the lock); a further `release`
hands the lock to the oldest waiter (the head of the queue) when one exists,
and marks the lock free when the queue is empty. -/
theorem writeLock_fifo (es : List LockEvent) (c : Nat) :
    (WriteLock.run .init es).holders ≤ 1
    ∧ (WriteLock.run .init es).suspended
        = (WriteLock.run .init es).granted ++ (WriteLock.run .init es).queue
    ∧ ((WriteLock.run .init es).locked = false →
        (WriteLock.run .init es).queue = [])
    ∧ ((WriteLock.run .init es).locked = true →
        ((WriteLock.run .init es).step (.acq c)).queue
            = (WriteLock.run .init es).queue ++ [c]
        ∧ ((WriteLock.run .init es).step (.acq c)).suspended
            = (WriteLock.run .init es).suspended ++ [c]
        ∧ ((WriteLock.run .init es).step (.acq c)).holders
            = (WriteLock.run .init es).holders)
    ∧ ((WriteLock.run .init es).step .rel).granted
        = (WriteLock.run .init es).granted
            ++ (WriteLock.run .init es).queue.take 1
    ∧ ((WriteLock.run .init es).step .rel).queue
        = (WriteLock.run .init es).queue.drop 1
    ∧ ((WriteLock.run .init es).queue = [] →
        ((WriteLock.run .init es).step .rel).locked = false) := by
  obtain ⟨h1, h2, h3, h4⟩ :=
    WriteLock.inv_run WriteLock.init es WriteLock.inv_init
  refine ⟨h1, h4, h3, ?_, ?_, ?_, ?_⟩
  · intro hl
    simp [WriteLock.step, hl]
  · cases hq : (WriteLock.run .init es).queue with
    | nil => simp [WriteLock.step, hq]
    | cons x rest => simp [WriteLock.step, hq]
  · cases hq : (WriteLock.run .init es).queue with
    | nil => simp [WriteLock.step, hq]
    | cons x rest => simp [WriteLock.step, hq]
  · intro hq
    simp [WriteLock.step, hq]

/-- C6 witness: the FIFO theorem evaluated on the three-acquire
three-release demo trace. -/
theorem writeLock_fifo_witness :
    (WriteLock.run .init WriteLock.demoTrace).holders ≤ 1
    ∧ (WriteLock.run .init WriteLock.demoTrace).suspended
        = (WriteLock.run .init WriteLock.demoTrace).granted
            ++ (WriteLock.run .init WriteLock.demoTrace).queue
    ∧ ((WriteLock.run .init WriteLock.demoTrace).locked = false →
        (WriteLock.run .init WriteLock.demoTrace).queue = [])
    ∧ ((WriteLock.run .init WriteLock.demoTrace).locked = true →
        ((WriteLock.run .init WriteLock.demoTrace).step (.acq 7)).queue
            = (WriteLock.run .init WriteLock.demoTrace).queue ++ [7]
        ∧ ((WriteLock.run .init WriteLock.demoTrace).step (.acq 7)).suspended
            = (WriteLock.run .init WriteLock.demoTrace).suspended ++ [7]
        ∧ ((WriteLock.run .init WriteLock.demoTrace).step (.acq 7)).holders
            = (WriteLock.run .init WriteLock.demoTrace).holders)
    ∧ ((WriteLock.run .init WriteLock.demoTrace).step .rel).granted
        = (WriteLock.run .init WriteLock.demoTrace).granted
            ++ (WriteLock.run .init WriteLock.demoTrace).queue.take 1
    ∧ ((WriteLock.run .init WriteLock.demoTrace).step .rel).queue
        = (WriteLock.run .init WriteLock.demoTrace).queue.drop 1
    ∧ ((WriteLock.run .init WriteLock.demoTrace).queue = [] →
        ((WriteLock.run .init WriteLock.demoTrace).step .rel).locked
          = false) :=
  writeLock_fifo WriteLock.demoTrace 7

/-! ### Read policy, limit and the pipeline law -/

/-- C7: every read operation on a missing file behaves exactly as on an
empty collection, and every read operation on an unreadable/corrupt file
propagates the read error. -/
theorem read_ops_missing_and_corrupt {P : Type} (i : String)
    (p : WithId P → Bool) (e : String) :
    JsonFileStore.getAll (.absent : FileState P)
        = JsonFileStore.getAll (.content [] : FileState P)
    ∧ JsonFileStore.getById i (.absent : FileState P)
        = JsonFileStore.getById i (.content [] : FileState P)
    ∧ JsonFileStore.find p (.absent : FileState P)
        = JsonFileStore.find p (.content [] : FileState P)
    ∧ JsonFileStore.first p (.absent : FileState P)
        = JsonFileStore.first p (.content [] : FileState P)
    ∧ JsonFileStore.count (some p) (.absent : FileState P)
        = JsonFileStore.count (some p) (.content [] : FileState P)
    ∧ JsonFileStore.count none (.absent : FileState P)
        = JsonFileStore.count none (.content [] : FileState P)
    ∧ JsonFileStore.existsId i (.absent : FileState P)
        = JsonFileStore.existsId i (.content [] : FileState P)
    ∧ JsonFileStore.query (.absent : FileState P)
        = JsonFileStore.query (.content [] : FileState P)
    ∧ JsonFileStore.getAll (.corrupt e : FileState P) = .error (.read e)
    ∧ JsonFileStore.getById i (.corrupt e : FileState P) = .error (.read e)
    ∧ JsonFileStore.find p (.corrupt e : FileState P) = .error (.read e)
    ∧ JsonFileStore.first p (.corrupt e : FileState P) = .error (.read e)
    ∧ JsonFileStore.count (some p) (.corrupt e : FileState P)
        = .error (.read e)
    ∧ JsonFileStore.count none (.corrupt e : FileState P) = .error (.read e)
    ∧ JsonFileStore.existsId i (.corrupt e : FileState P) = .error (.read e)
    ∧ JsonFileStore.query (.corrupt e : FileState P) = .error (.read e) :=
  ⟨rfl, rfl, rfl, rfl, rfl, rfl, rfl, rfl,
    rfl, rfl, rfl, rfl, rfl, rfl, rfl, rfl⟩

theorem jsSlice_natCast {α : Type} (n : Nat) (l : List α) :
    jsSlice (n : Int) l = l.take n := by
  simp [jsSlice]

/-- C9: for a record count `n`, `limit(n)` truncates the working sequence
to its first `n` records: the result is `take n`, a prefix of the working
sequence of length `min n (length)`. -/
theorem limit_truncates {P : Type} (n : Nat) (l : List (WithId P)) :
    (QueryBuilder.limit ⟨l⟩ (n : Int)).exec = l.take n
    ∧ ((QueryBuilder.limit ⟨l⟩ (n : Int)).exec).length = min n l.length
    ∧ ((QueryBuilder.limit ⟨l⟩ (n : Int)).exec) <+: l := by
  have h : (QueryBuilder.limit ⟨l⟩ (n : Int)).exec = l.take n := by
    show jsSlice (n : Int) l = l.take n
    exact jsSlice_natCast n l
  refine ⟨h, ?_, ?_⟩
  · rw [h, List.length_take]
  · rw [h]
    exact List.take_prefix n l

theorem sort_desc_eq_sortByKeyDesc {P κ : Type} [LinearOrder κ]
    (k : WithId P → κ) (b : QueryBuilder P) :
    QueryBuilder.sort b k .desc = ⟨sortByKeyDesc k b.data⟩ := by
  have hf : (fun x y => decide (jsCompare k SortOrder.desc x y ≤ 0))
      = (fun (x y : WithId P) => decide (k y ≤ k x)) := by
    funext x y
    simp only [jsCompare]
    rcases lt_trichotomy (k x) (k y) with hlt | heq | hgt
    · have h1 : ¬ (k y ≤ k x) := not_le.mpr hlt
      simp [hlt, h1]
    · have h1 : ¬ (k x < k y) := by simp [heq]
      have h2 : ¬ (k y < k x) := by simp [heq]
      simp [h1, h2, le_of_eq heq.symm]
    · have h1 : ¬ (k x < k y) := not_lt.mpr (le_of_lt hgt)
      simp [h1, hgt, le_of_lt hgt]
  unfold QueryBuilder.sort sortByKeyDesc
  rw [hf]

/-- C1: the chained pipeline `query().filter(p).sort(k,"desc").limit(n)
.exec()` over any file state equals `find(p)` over the same state, sorted
by key `k` descending, truncated to its first `n` elements. -/
theorem query_pipeline_law {P κ : Type} [LinearOrder κ] (st : FileState P)
    (p : WithId P → Bool) (k : WithId P → κ) (n : Nat) :
    (JsonFileStore.query st).map
        (fun b => (((b.filter p).sort k .desc).limit (n : Int)).exec)
      = (JsonFileStore.find p st).map
          (fun res => (sortByKeyDesc k res).take n) := by
  cases st with
  | absent =>
    simp only [JsonFileStore.query, JsonFileStore.find,
      JsonFileStore.readFile, Except.map]
    rw [sort_desc_eq_sortByKeyDesc]
    show Except.ok (jsSlice (n : Int) (sortByKeyDesc k (List.filter p [])))
        = _
    rw [jsSlice_natCast]
  | content l =>
    simp only [JsonFileStore.query, JsonFileStore.find,
      JsonFileStore.readFile, Except.map]
    rw [sort_desc_eq_sortByKeyDesc]
    show Except.ok (jsSlice (n : Int) (sortByKeyDesc k (List.filter p l)))
        = _
    rw [jsSlice_natCast]
  | corrupt m => rfl

/-! ### Store algebra: create, update, delete, find -/

/-- C10: `create` validates before any file access: an input that fails the
schema raises the validation error and leaves the file state unchanged —
for every file state, including a corrupt one that any read would fail on,
showing no read happens before validation. -/
theorem create_invalid_no_write {I P U : Type} (V : Validator I P U)
    (uuid : String) (input : I) (st : FileState P) (e : String)
    (hparse : V.parse input = .error e) :
    JsonFileStore.create V uuid input st = (.error (.validation e), st) := by
  simp [JsonFileStore.create, hparse]

/-- C10 witness: a Todo input missing its required `title` is rejected with
the file untouched, even when the backing file is corrupt. -/
theorem create_invalid_no_write_witness :
    (todoValidator demoNow).parse ⟨none, some true, none⟩
        = .error "title: Required"
    ∧ JsonFileStore.create (todoValidator demoNow) "id1"
        ⟨none, some true, none⟩ (.corrupt "disk error")
      = (.error (.validation "title: Required"), .corrupt "disk error") :=
  ⟨rfl, create_invalid_no_write (todoValidator demoNow) "id1"
    ⟨none, some true, none⟩ (.corrupt "disk error") "title: Required" rfl⟩

/-- C2: on a readable state, `create` with a valid input appends the record
built from the validated fields and the fresh id, and `getById` on the
returned id then finds exactly that record (the id being fresh for the
snapshot). -/
theorem create_then_getById {I P U : Type} (V : Validator I P U)
    (uuid : String) (input : I) (st : FileState P) (parsed : P)
    (data : List (WithId P))
    (hparse : V.parse input = .ok parsed)
    (hread : JsonFileStore.readFile st = .ok data)
    (hfresh : data.all (fun r => r.id != uuid) = true) :
    JsonFileStore.create V uuid input st
      = (.ok ⟨uuid, parsed⟩, .content (data ++ [⟨uuid, parsed⟩]))
    ∧ JsonFileStore.getById uuid (JsonFileStore.create V uuid input st).2
      = .ok (some ⟨uuid, parsed⟩) := by
  have h1 : JsonFileStore.create V uuid input st
      = (.ok ⟨uuid, parsed⟩, .content (data ++ [⟨uuid, parsed⟩])) := by
    simp [JsonFileStore.create, hparse, hread]
  refine ⟨h1, ?_⟩
  rw [h1]
  simp only [JsonFileStore.getById, JsonFileStore.readFile, Except.map]
  have hnone : data.find? (fun r => r.id == uuid) = none := by
    rw [List.find?_eq_none]
    intro x hx
    have hx' := List.all_eq_true.mp hfresh x hx
    simp only [bne_iff_ne] at hx'
    simp [hx']
  rw [List.find?_append, hnone]
  simp

/-- C2 witness: creating a third Todo in the two-record collection and
reading it back by its fresh id. -/
theorem create_then_getById_witness :
    (todoValidator demoNow).parse ⟨some "Task C", none, none⟩
        = .ok ⟨"Task C", false, demoNow⟩
    ∧ JsonFileStore.readFile stAB = .ok [recA, recB]
    ∧ ([recA, recB].all (fun r => r.id != "c3")) = true
    ∧ (JsonFileStore.create (todoValidator demoNow) "c3"
          ⟨some "Task C", none, none⟩ stAB
        = (.ok ⟨"c3", ⟨"Task C", false, demoNow⟩⟩,
            .content ([recA, recB] ++ [⟨"c3", ⟨"Task C", false, demoNow⟩⟩]))
      ∧ JsonFileStore.getById "c3"
          (JsonFileStore.create (todoValidator demoNow) "c3"
            ⟨some "Task C", none, none⟩ stAB).2
        = .ok (some ⟨"c3", ⟨"Task C", false, demoNow⟩⟩)) :=
  ⟨rfl, rfl, rfl,
    create_then_getById (todoValidator demoNow) "c3"
      ⟨some "Task C", none, none⟩ stAB ⟨"Task C", false, demoNow⟩
      [recA, recB] rfl rfl rfl⟩

/-- C3: after `delete(id)` the id no longer resolves via `getById`; and
when no stored record carries the id, `delete` returns `false` and leaves
the file state exactly as it was. -/
theorem delete_then_getById {P : Type} (i : String) (st : FileState P)
    (data : List (WithId P))
    (hread : JsonFileStore.readFile st = .ok data) :
    JsonFileStore.getById i (JsonFileStore.delete i st).2 = .ok none
    ∧ (data.all (fun r => r.id != i) = true →
        JsonFileStore.delete i st = (.ok false, st)) := by
  by_cases hlen : (data.filter (fun r => r.id != i)).length = data.length
  · have hall : ∀ r ∈ data, (r.id != i) = true :=
      List.filter_length_eq_length.mp hlen
    have hdel : JsonFileStore.delete i st = (.ok false, st) := by
      simp [JsonFileStore.delete, hread, hlen]
    refine ⟨?_, fun _ => hdel⟩
    rw [hdel]
    simp only [JsonFileStore.getById, hread, Except.map]
    have hnone : data.find? (fun r => r.id == i) = none := by
      rw [List.find?_eq_none]
      intro x hx
      have hx' := hall x hx
      simp only [bne_iff_ne] at hx'
      simp [hx']
    rw [hnone]
  · have hdel : JsonFileStore.delete i st
        = (.ok true, .content (data.filter (fun r => r.id != i))) := by
      simp [JsonFileStore.delete, hread, hlen]
    refine ⟨?_, fun hall => ?_⟩
    · rw [hdel]
      simp only [JsonFileStore.getById, JsonFileStore.readFile, Except.map]
      have hnone : (data.filter (fun r => r.id != i)).find?
          (fun r => r.id == i) = none := by
        rw [List.find?_eq_none]
        intro x hx
        have hx' := (List.mem_filter.mp hx).2
        simp only [bne_iff_ne] at hx'
        simp [hx']
      rw [hnone]
    · exact absurd (List.filter_length_eq_length.mpr
        (List.all_eq_true.mp hall)) hlen

/-- C3 witness: deleting an id that is not in the two-record collection. -/
theorem delete_then_getById_witness :
    JsonFileStore.readFile stAB = .ok [recA, recB]
    ∧ (JsonFileStore.getById "zz" (JsonFileStore.delete "zz" stAB).2
        = .ok none
      ∧ ([recA, recB].all (fun r => r.id != "zz") = true →
          JsonFileStore.delete "zz" stAB = (.ok false, stAB))) :=
  ⟨rfl, delete_then_getById "zz" stAB [recA, recB] rfl⟩

theorem updateList_none {I P U : Type} (V : Validator I P U) (i : String)
    (u : U) (data : List (WithId P))
    (h : ∀ r ∈ data, (r.id == i) = false) :
    JsonFileStore.updateList V i u data = .ok none := by
  induction data with
  | nil => rfl
  | cons r rest ih =>
    have hr := h r (List.mem_cons_self r rest)
    have hrest := ih (fun x hx => h x (List.mem_cons_of_mem r hx))
    simp [JsonFileStore.updateList, hr, hrest, Except.map]

/-- C5: `update` on an id matching no stored record returns absent (not an
error) and leaves the file state unchanged. -/
theorem update_missing_id_noop {I P U : Type} (V : Validator I P U)
    (i : String) (u : U) (st : FileState P) (data : List (WithId P))
    (hread : JsonFileStore.readFile st = .ok data)
    (hmiss : data.all (fun r => r.id != i) = true) :
    JsonFileStore.update V i u st = (.ok none, st) := by
  have h : ∀ r ∈ data, (r.id == i) = false := by
    intro r hr
    have hr' := List.all_eq_true.mp hmiss r hr
    simp only [bne_iff_ne] at hr'
    simp [hr']
  simp [JsonFileStore.update, hread, updateList_none V i u data h]

/-- C5 witness: updating an id absent from the two-record collection. -/
theorem update_missing_id_noop_witness :
    JsonFileStore.readFile stAB = .ok [recA, recB]
    ∧ ([recA, recB].all (fun r => r.id != "zz") = true)
    ∧ JsonFileStore.update (todoValidator demoNow) "zz" emptyPatch stAB
        = (.ok none, stAB) :=
  ⟨rfl, rfl, update_missing_id_noop (todoValidator demoNow) "zz"
    emptyPatch stAB [recA, recB] rfl rfl⟩

theorem updateList_found_self {I P U : Type} (V : Validator I P U)
    (i : String) (u : U) (data : List (WithId P)) (r : WithId P)
    (hfound : data.find? (fun x => x.id == i) = some r)
    (hmerge : V.merge r.fields u = r.fields)
    (hvalid : V.partialParse r.fields = .ok r.fields) :
    JsonFileStore.updateList V i u data = .ok (some (r, data)) := by
  induction data with
  | nil => simp at hfound
  | cons x rest ih =>
    by_cases hx : (x.id == i) = true
    · have hxr : x = r := by
        rw [List.find?_cons_of_pos rest hx] at hfound
        exact Option.some.inj hfound
      subst hxr
      simp only [JsonFileStore.updateList, hx, if_true]
      rw [hmerge, hvalid]
    · have hfound' : rest.find? (fun y => y.id == i) = some r := by
        rwa [List.find?_cons_of_neg rest hx] at hfound
      simp [JsonFileStore.updateList, hx, ih hfound', Except.map]

/-- C4: a no-op `update(id, partial)` — one whose partial input merges to
the record's own fields — on a stored record that passes partial
re-validation returns the record and leaves the file state unchanged, and
doing it again gives the same result: the empty update is idempotent. -/
theorem update_empty_idempotent {I P U : Type} (V : Validator I P U)
    (i : String) (u : U) (st : FileState P) (data : List (WithId P))
    (r : WithId P)
    (hread : JsonFileStore.readFile st = .ok data)
    (hfound : data.find? (fun x => x.id == i) = some r)
    (hmerge : V.merge r.fields u = r.fields)
    (hvalid : V.partialParse r.fields = .ok r.fields) :
    JsonFileStore.update V i u st = (.ok (some r), st)
    ∧ JsonFileStore.update V i u (JsonFileStore.update V i u st).2
        = (.ok (some r), st) := by
  have hst : st = .content data := by
    cases st with
    | absent =>
      have hd : data = [] := by
        simpa [JsonFileStore.readFile] using hread.symm
      subst hd
      simp at hfound
    | content l =>
      have hl : l = data := by
        simpa [JsonFileStore.readFile] using hread
      rw [hl]
    | corrupt m => simp [JsonFileStore.readFile] at hread
  have h1 : JsonFileStore.update V i u st = (.ok (some r), .content data) := by
    simp [JsonFileStore.update, hread,
      updateList_found_self V i u data r hfound hmerge hvalid]
  rw [← hst] at h1
  refine ⟨h1, ?_⟩
  rw [h1]
  exact h1

/-- C4 witness: the empty partial update on the first stored Todo. -/
theorem update_empty_idempotent_witness :
    JsonFileStore.readFile stAB = .ok [recA, recB]
    ∧ [recA, recB].find? (fun x => x.id == "a1") = some recA
    ∧ (todoValidator demoNow).merge recA.fields emptyPatch = recA.fields
    ∧ (todoValidator demoNow).partialParse recA.fields = .ok recA.fields
    ∧ (JsonFileStore.update (todoValidator demoNow) "a1" emptyPatch stAB
        = (.ok (some recA), stAB)
      ∧ JsonFileStore.update (todoValidator demoNow) "a1" emptyPatch
          (JsonFileStore.update (todoValidator demoNow) "a1" emptyPatch
            stAB).2
        = (.ok (some recA), stAB)) :=
  ⟨rfl, rfl, rfl, rfl,
    update_empty_idempotent (todoValidator demoNow) "a1" emptyPatch stAB
      [recA, recB] recA rfl rfl rfl rfl⟩

/-- C8: `find(p)` returns exactly the subsequence of the stored records for
which `p` holds, in stored order (it equals `List.filter`, is an
order-preserving sublist, every returned record satisfies `p`, and its
length counts every match); and `count()` with no predicate equals the
length of `getAll()`. -/
theorem find_subseq_count {P : Type} (st : FileState P)
    (data : List (WithId P)) (p : WithId P → Bool)
    (hread : JsonFileStore.readFile st = .ok data) :
    JsonFileStore.find p st = .ok (data.filter p)
    ∧ (data.filter p).Sublist data
    ∧ (data.filter p).all p = true
    ∧ (data.filter p).length = data.countP p
    ∧ JsonFileStore.count none st = .ok data.length
    ∧ JsonFileStore.getAll st = .ok data
    ∧ JsonFileStore.count none st
        = (JsonFileStore.getAll st).map List.length := by
  refine ⟨?_, List.filter_sublist data, ?_, ?_, ?_, hread, ?_⟩
  · simp [JsonFileStore.find, hread, Except.map]
  · rw [List.all_eq_true]
    intro x hx
    exact (List.mem_filter.mp hx).2
  · exact (List.countP_eq_length_filter p data).symm
  · simp [JsonFileStore.count, hread, Except.map]
  · simp [JsonFileStore.count, JsonFileStore.getAll, hread, Except.map]

/-- C8 witness: finding the completed Todos among the two stored records. -/
theorem find_subseq_count_witness :
    JsonFileStore.readFile stAB = .ok [recA, recB]
    ∧ (JsonFileStore.find (fun r => r.fields.done) stAB
        = .ok ([recA, recB].filter (fun r => r.fields.done))
      ∧ ([recA, recB].filter (fun r => r.fields.done)).Sublist [recA, recB]
      ∧ ([recA, recB].filter (fun r => r.fields.done)).all
          (fun r => r.fields.done) = true
      ∧ ([recA, recB].filter (fun r => r.fields.done)).length
          = [recA, recB].countP (fun r => r.fields.done)
      ∧ JsonFileStore.count none stAB = .ok ([recA, recB].length)
      ∧ JsonFileStore.getAll stAB = .ok [recA, recB]
      ∧ JsonFileStore.count none stAB
          = (JsonFileStore.getAll stAB).map List.length) :=
  ⟨rfl, find_subseq_count stAB [recA, recB] (fun r => r.fields.done) rfl⟩

end SimpleStore
